import Mathlib

/-!
Verification of the incremental OCR extraction pipeline in
`src/cloudinary_ocr_automator.py`.

JSON records are modelled as association lists from field names to
`Option String` (`none` stands for JSON `null`).  Python dicts keyed by
`public_id` are association lists with insert-or-replace-in-place
semantics, matching CPython insertion order.  The regular expressions of
`parse_ocr_to_json` are embedded as backtracking matchers in
continuation-passing style that reproduce Python `re.search` semantics
(leftmost starting position, ordered alternation, greedy and lazy
quantifiers) for exactly the patterns appearing in the source.
The timestamp `datetime.utcnow().isoformat() + Z` is supplied as an
explicit function from the one-based loop index, and the OCR
collaborator (`ocr_extract_text`) as an oracle
`String → Except String String` giving either the raised error message
or the recognized text for a given image URL.
-/

/-- A JSON field value as used by the pipeline: a string or `null`. -/
abbrev JVal := Option String

/-- One listing record, as the Python dicts built by the script:
an association list from field name to value, in insertion order. -/
abbrev JRecord := List (String × JVal)

/-- The in-memory `existing_dict`: a mapping from `public_id` key to
record, in CPython insertion order. -/
abbrev Dict := List (String × JRecord)

/-- Python dict assignment `d[k] = v`: replace the value in place when the
key is present (keeping its position), otherwise append at the end. -/
def dictInsert (k : String) (v : JRecord) : Dict → Dict
  | [] => [(k, v)]
  | (k0, v0) :: rest =>
      if k0 = k then (k, v) :: rest else (k0, v0) :: dictInsert k v rest

/-! ## Character classes and string helpers -/

/-- The character class of Python `re` `\s` restricted to ASCII:
space, tab, newline, carriage return, vertical tab, form feed. -/
def pyIsSpace (c : Char) : Bool :=
  c == ' ' || c == '\t' || c == '\n' || c == '\r' ||
    c == Char.ofNat 11 || c == Char.ofNat 12

/-- The character class `[\r\n]` of the first substitution in
`parse_ocr_to_json`. -/
def isCRLF (c : Char) : Bool := c == '\r' || c == '\n'

/-- The character class `[A-Za-z]`. -/
def isAlphaAZ (c : Char) : Bool :=
  (65 ≤ c.toNat && c.toNat ≤ 90) || (97 ≤ c.toNat && c.toNat ≤ 122)

/-- The character class `[0-9]` (`\d` in ASCII). -/
def isDigitC (c : Char) : Bool := 48 ≤ c.toNat && c.toNat ≤ 57

/-- The character class `[a-zA-Z0-9_-]` used for seller handles. -/
def isHandleChar (c : Char) : Bool :=
  isAlphaAZ c || isDigitC c || c == '_' || c == '-'

/-- The character class `[:\s]` of the fallback seller pattern. -/
def isColonOrSpace (c : Char) : Bool := c == ':' || pyIsSpace c

/-- Case-insensitive character comparison, for `re.IGNORECASE`. -/
def lowEq (a b : Char) : Bool := a.toLower == b.toLower

/-- Replace every maximal run of characters satisfying `f` by the single
character `rep`; `inRun` records whether the previous character was in a
run.  This is `re.sub(cls+, rep, s)` for a character class `cls`. -/
def collapseRunsAux (f : Char → Bool) (rep : Char) : Bool → List Char → List Char
  | _, [] => []
  | inRun, c :: rest =>
      if f c then
        if inRun then collapseRunsAux f rep true rest
        else rep :: collapseRunsAux f rep true rest
      else c :: collapseRunsAux f rep false rest

/-- `re.sub(cls+, rep, s)` for a character class. -/
def collapseRuns (f : Char → Bool) (rep : Char) (s : List Char) : List Char :=
  collapseRunsAux f rep false s

/-- Python `str.strip()` restricted to ASCII whitespace. -/
def pyStrip (s : List Char) : List Char :=
  ((s.dropWhile pyIsSpace).reverse.dropWhile pyIsSpace).reverse

/-- The text normalisation at the top of `parse_ocr_to_json`:
`re.sub([\r\n]+, space)` then `re.sub(\s+, space)` then `.strip()`. -/
def cleanText (s : List Char) : List Char :=
  pyStrip (collapseRuns pyIsSpace ' ' (collapseRuns isCRLF ' ' s))

/-- Python `public_id.split('/')[-1]`: the characters after the last
slash (the whole string when there is no slash). -/
def lastSegAux (cur : List Char) : List Char → List Char
  | [] => cur
  | c :: rest => if c == '/' then lastSegAux [] rest else lastSegAux (cur ++ [c]) rest

/-- `public_id.split('/')[-1]` on strings. -/
def lastSeg (s : String) : String := ⟨lastSegAux [] s.data⟩

/-! ## Backtracking regex matchers in continuation-passing style

Each combinator consumes characters from the input and calls its
continuation on every admissible remainder, in exactly the order the
Python `re` backtracking engine would: greedy quantifiers offer the
longest prefix first, lazy ones the shortest, alternatives are tried
left to right, and `searchA` tries starting positions left to right. -/

/-- First-success choice, the backtracking `orelse`. -/
def orE {α : Type} : Option α → Option α → Option α
  | some x, _ => some x
  | none, b => b

/-- Match a literal character sequence case-insensitively. -/
def litCI {α : Type} : List Char → (List Char → Option α) → List Char → Option α
  | [], k, s => k s
  | c :: cs, k, d :: rest => if lowEq c d then litCI cs k rest else none
  | _ :: _, _, [] => none

/-- Match one given character exactly. -/
def chEq {α : Type} (ch : Char) (k : List Char → Option α) : List Char → Option α
  | c :: rest => if c == ch then k rest else none
  | [] => none

/-- Greedy `cls+`: one or more characters of the class, longest first. -/
def clsPlus {α : Type} (f : Char → Bool) (k : List Char → Option α) :
    List Char → Option α
  | c :: rest => if f c then orE (clsPlus f k rest) (k rest) else none
  | [] => none

/-- Exactly `n` characters of the class, `cls{n}`. -/
def clsExact {α : Type} (f : Char → Bool) : Nat → (List Char → Option α) → List Char → Option α
  | 0, k, s => k s
  | n + 1, k, c :: rest => if f c then clsExact f n k rest else none
  | _ + 1, _, [] => none

/-- Greedy `cls{0,n}`: at most `n` characters of the class, longest
first. -/
def clsAtMost {α : Type} (f : Char → Bool) : Nat → (List Char → Option α) → List Char → Option α
  | 0, k, s => k s
  | _ + 1, k, [] => k []
  | n + 1, k, c :: rest =>
      if f c then orE (clsAtMost f n k rest) (k (c :: rest)) else k (c :: rest)

/-- Greedy optional character, `c?`. -/
def optCh {α : Type} (ch : Char) (k : List Char → Option α) : List Char → Option α
  | c :: rest => if c == ch then orE (k rest) (k (c :: rest)) else k (c :: rest)
  | [] => k []

/-- Lazy `.+?`: one or more characters other than a newline, shortest
first (`.` in Python without `DOTALL` excludes only the newline). -/
def dotLazyPlus {α : Type} (k : List Char → Option α) : List Char → Option α
  | c :: rest => if c == '\n' then none else orE (k rest) (dotLazyPlus k rest)
  | [] => none

/-- `re.search` position scan: try the matcher at every starting
position, left to right. -/
def searchA {α : Type} (m : List Char → Option α) : List Char → Option α
  | [] => m []
  | c :: rest => orE (m (c :: rest)) (searchA m rest)

/-- Greedy `\s+`. -/
def spaces1 {α : Type} (k : List Char → Option α) : List Char → Option α :=
  clsPlus pyIsSpace k

/-- Greedy `\d{1,2}`. -/
def digits12 {α : Type} (k : List Char → Option α) : List Char → Option α :=
  clsExact isDigitC 1 (clsAtMost isDigitC 1 k)

/-- Greedy `\d{2,3}`. -/
def digits23 {α : Type} (k : List Char → Option α) : List Char → Option α :=
  clsExact isDigitC 2 (clsAtMost isDigitC 1 k)

/-! ## The four field extraction patterns of `parse_ocr_to_json` -/

/-- The capture of the sold-date pattern,
`[A-Za-z]{3}\s+\d{1,2},?\s+\d{4}`, run at the current position; the
continuation receives the remainder after the group. -/
def dateCore {α : Type} (k : List Char → Option α) : List Char → Option α :=
  clsExact isAlphaAZ 3 (spaces1 (digits12 (optCh ',' (spaces1 (clsExact isDigitC 4 k)))))

/-- Match the whole sold-date pattern
`Sold\s+([A-Za-z]{3}\s+\d{1,2},?\s+\d{4})` (IGNORECASE) at the current
position, returning the capture group. -/
def soldDateAt (s : List Char) : Option (List Char) :=
  litCI ("Sold".data)
    (spaces1 (fun r0 =>
      dateCore (fun r1 => some (r0.take (r0.length - r1.length))) r0)) s

/-- `re.search` of the sold-date pattern: group 1 of the leftmost
match. -/
def soldDateSearch (s : List Char) : Option (List Char) := searchA soldDateAt s

/-- The stop tokens ending a title capture:
`\s+(?:Brand New|Pre-Owned|New|Used|\$\d+)` (IGNORECASE), alternatives
in source order. -/
def stopSuffix {α : Type} (k : List Char → Option α) : List Char → Option α :=
  spaces1 (fun r =>
    orE (litCI ("Brand New".data) k r)
      (orE (litCI ("Pre-Owned".data) k r)
        (orE (litCI ("New".data) k r)
          (orE (litCI ("Used".data) k r)
            (chEq '$' (clsPlus isDigitC k) r)))))

/-- Match the title pattern
`Sold\s+[A-Za-z]{3}\s+\d{1,2},?\s+\d{4}\s+(.+?)(?:\s+(?:Brand New|Pre-Owned|New|Used|\$\d+))`
(IGNORECASE) at the current position, returning the capture group. -/
def titleAt (s : List Char) : Option (List Char) :=
  litCI ("Sold".data)
    (spaces1 (clsExact isAlphaAZ 3 (spaces1 (digits12 (optCh ','
      (spaces1 (clsExact isDigitC 4
        (spaces1 (fun r0 =>
          dotLazyPlus (fun r1 =>
            stopSuffix (fun _ => some (r0.take (r0.length - r1.length))) r1) r0))))))))) s

/-- `re.search` of the title pattern: group 1 of the leftmost match. -/
def titleSearch (s : List Char) : Option (List Char) := searchA titleAt s

/-- Match the price pattern `\$(\d+\.\d{2})` at the current position,
returning the capture group. -/
def priceAt : List Char → Option (List Char)
  | c :: r0 =>
      if c == '$' then
        clsPlus isDigitC
          (chEq '.' (clsExact isDigitC 2
            (fun r1 => some (r0.take (r0.length - r1.length))))) r0
      else none
  | [] => none

/-- `re.search` of the price pattern: group 1 of the leftmost match. -/
def priceSearch (s : List Char) : Option (List Char) := searchA priceAt s

/-- The tail of the first seller pattern after the handle group:
`\s+\d{2,3}(?:\.\d+)?%\s+positive` (IGNORECASE). -/
def sellerTail {α : Type} (k : List Char → Option α) : List Char → Option α :=
  spaces1 (digits23 (fun s =>
    (match s with
      | '.' :: rest => orE (clsPlus isDigitC (chEq '%' (spaces1 (litCI ("positive".data) k))) rest)
          (chEq '%' (spaces1 (litCI ("positive".data) k)) ('.' :: rest))
      | s0 => chEq '%' (spaces1 (litCI ("positive".data) k)) s0)))

/-- The handle and tail of the first seller pattern,
`([a-zA-Z0-9_-]+)\s+\d{2,3}(?:\.\d+)?%\s+positive`, run at the current
position, returning the handle capture. -/
def sellerCoreAt (s : List Char) : Option (List Char) :=
  clsPlus isHandleChar
    (fun r1 => sellerTail (fun _ => some (s.take (s.length - r1.length))) r1) s

/-- The seller core preceded by one whitespace character, the `\s`
branch of `(?:^|\s)`. -/
def sellerSpaceAt : List Char → Option (List Char)
  | c :: rest => if pyIsSpace c then sellerCoreAt rest else none
  | [] => none

/-- `re.search` of the first seller pattern
`(?:^|\s)([a-zA-Z0-9_-]+)\s+\d{2,3}(?:\.\d+)?%\s+positive`
(IGNORECASE): the `^` branch applies at position 0 only, the `\s` branch
at every position, leftmost first. -/
def seller1Search (s : List Char) : Option (List Char) :=
  orE (sellerCoreAt s) (searchA sellerSpaceAt s)

/-- Match the fallback seller pattern `seller[:\s]+([a-zA-Z0-9_-]+)`
(IGNORECASE) at the current position, returning the capture group. -/
def seller2At (s : List Char) : Option (List Char) :=
  litCI ("seller".data)
    (clsPlus isColonOrSpace (fun r0 =>
      clsPlus isHandleChar (fun r1 => some (r0.take (r0.length - r1.length))) r0)) s

/-- `re.search` of the fallback seller pattern. -/
def seller2Search (s : List Char) : Option (List Char) := searchA seller2At s

/-- The seller extraction of `parse_ocr_to_json`: the first pattern,
falling back to the `seller:` label pattern when it fails. -/
def sellerSearch (s : List Char) : Option (List Char) :=
  match seller1Search s with
  | some h => some h
  | none => seller2Search s

/-! ## The field extractor -/

/-- Embedding of `parse_ocr_to_json(raw_text, url, public_id)`
(source lines 100-150).  `now` stands for the value of
`datetime.utcnow().isoformat() + Z` computed inside the function.
The returned dict carries exactly the seven keys of the source, in
order; in particular it has no `success` key. -/
def parse_ocr_to_json (raw_text url public_id now : String) : JRecord :=
  let clean := cleanText raw_text.data
  [ ("sold_date", (soldDateSearch clean).map (fun l => (⟨l⟩ : String))),
    ("title", (titleSearch clean).map (fun l => (⟨pyStrip l⟩ : String))),
    ("sold_price", (priceSearch clean).map (fun l => (⟨l⟩ : String))),
    ("seller", (sellerSearch clean).map (fun l => (⟨l⟩ : String))),
    ("image_url", some url),
    ("processed_at", some now),
    ("public_id", some (lastSeg public_id)) ]

/-! ## The record store -/

/-- Embedding of `load_existing_json(filepath)` (source lines 166-182).
The file system is abstracted as what reading the artifact would give:
`none` when the file does not exist, `some (Except.error e)` when it
exists but `json.load` raises (malformed content), and
`some (Except.ok data)` when it parses. -/
def load_existing_json (file : Option (Except String (List JRecord))) : List JRecord :=
  match file with
  | none => []
  | some (Except.error _) => []
  | some (Except.ok data) => data

/-- The dict comprehension at source lines 193 and 250:
`{entry.get(public_id): entry for entry in existing_data if entry.get(public_id)}`.
Entries whose `public_id` is absent, `null` or the empty string (falsy)
are skipped; later entries replace earlier ones with the same key. -/
def buildDictAux (d : Dict) : List JRecord → Dict
  | [] => d
  | e :: rest =>
      match List.lookup "public_id" e with
      | some (some s) =>
          if s = "" then buildDictAux d rest else buildDictAux (dictInsert s e d) rest
      | _ => buildDictAux d rest

/-- The `existing_dict` built from the loaded artifact. -/
def buildExistingDict (existing_data : List JRecord) : Dict :=
  buildDictAux [] existing_data

/-- `existing_entry.get('success', 'fail')` (source line 207): the
stored value when the key is present (possibly `null`), the default
string `fail` when the key is absent. -/
def successStatus (e : JRecord) : JVal :=
  match List.lookup "success" e with
  | none => some "fail"
  | some v => v

/-- The loop body of `filter_images_to_process` (source lines 197-211)
over the source images, with the lookup dict fixed. -/
def filterAux (d : Dict) : List (String × String) → List (String × String × String)
  | [] => []
  | (url, public_id) :: rest =>
      match List.lookup (lastSeg public_id) d with
      | none => (url, public_id, "new") :: filterAux d rest
      | some e =>
          if successStatus e = some "reprocess" then
            (url, public_id, "reprocess") :: filterAux d rest
          else if successStatus e = some "fail" then
            (url, public_id, "fail") :: filterAux d rest
          else filterAux d rest

/-- Embedding of `filter_images_to_process(all_images, existing_data)`
(source lines 185-213).  Work items are `(url, public_id, reason)`. -/
def filter_images_to_process (all_images : List (String × String))
    (existing_data : List JRecord) : List (String × String × String) :=
  filterAux (buildExistingDict existing_data) all_images

/-! ## The reconciliation driver -/

/-- The synthetic failure record written by the `except` branch of the
main loop (source lines 283-292), with `msg` the stringified exception
and the title carrying `Error:` plus the first fifty characters. -/
def failRecord (msg url pid now : String) : JRecord :=
  [ ("success", some "fail"),
    ("sold_date", none),
    ("title", some ("Error: " ++ (⟨msg.data.take 50⟩ : String))),
    ("sold_price", none),
    ("seller", none),
    ("image_url", some url),
    ("processed_at", some now),
    ("public_id", some pid) ]

/-- `str(KeyError(success))`, the message of the `KeyError` raised by
`parsed[success]` at source line 267: the key name in single quotes. -/
def keyErrorMsg : String :=
  ⟨[Char.ofNat 39] ++ "success".data ++ [Char.ofNat 39]⟩

/-- One iteration of the main processing loop (source lines 256-292)
acting on `existing_dict`.  `ocr` is the OCR collaborator oracle and
`times idx` the timestamp drawn while processing the item with one-based
index `idx`.  On OCR success the parsed record is stored, but the read
`parsed[success]` raises a `KeyError` whenever the parsed dict has no
`success` key, and the handler then overwrites the entry with a
synthetic failure record. -/
def processItem (ocr : String → Except String String) (times : Nat → String)
    (idx : Nat) (d : Dict) (url public_id : String) : Dict :=
  let pid := lastSeg public_id
  match ocr url with
  | Except.error e => dictInsert pid (failRecord e url pid (times idx)) d
  | Except.ok raw =>
      let parsed := parse_ocr_to_json raw url public_id (times idx)
      let d1 := dictInsert pid parsed d
      match List.lookup "success" parsed with
      | some _ => d1
      | none => dictInsert pid (failRecord keyErrorMsg url pid (times idx)) d1

/-- The main processing loop over the work list, starting at one-based
index `idx` as in `enumerate(images_to_process, 1)`. -/
def runLoopAux (ocr : String → Except String String) (times : Nat → String)
    (idx : Nat) (work : List (String × String × String)) (d : Dict) : Dict :=
  match work with
  | [] => d
  | (url, public_id, _) :: rest =>
      runLoopAux ocr times (idx + 1) rest (processItem ocr times idx d url public_id)

/-- The `existing_dict` at the end of the main loop of a run. -/
def finalStore (images : List (String × String)) (existing : List JRecord)
    (ocr : String → Except String String) (times : Nat → String) : Dict :=
  runLoopAux ocr times 1 (filter_images_to_process images existing)
    (buildExistingDict existing)

/-- Embedding of `main()` (source lines 216-322) after image listing and
artifact loading: with the source images and loaded store given, the run
returns `none` when the work list is empty (the early `return` at line
242, before any write or upload), and otherwise
`some (list(existing_dict.values()))`, the list serialized to the
artifact at lines 318-322. -/
def main_run (images : List (String × String)) (existing : List JRecord)
    (ocr : String → Except String String) (times : Nat → String) :
    Option (List JRecord) :=
  match filter_images_to_process images existing with
  | [] => none
  | _ :: _ => some ((finalStore images existing ocr times).map (fun kv => kv.2))

/-! ## The persisted artifact write (source lines 318-322)

`main` writes the artifact with `open(output_path, 'w')` followed by
`json.dump`: opening with mode `w` first truncates the file in place,
then the serialized content is written to the same path.  The write is
modelled as a sequence of file-system operations on a store mapping
paths to contents, so that the states visible after an interruption are
exactly the states after a prefix of the sequence. -/

/-- A file-system operation: truncating open, appending write, or
rename (the latter never issued by the source, included so that
atomicity via write-to-temp-then-rename is expressible). -/
inductive FsOp where
  | truncate (path : String)
  | write (path : String) (data : String)
  | rename (src dst : String)

/-- Whether an operation is a rename. -/
def FsOp.isRename : FsOp → Bool
  | FsOp.rename _ _ => true
  | _ => false

/-- Effect of one operation on the file system (paths to contents). -/
def applyOp (fs : String → Option String) : FsOp → String → Option String
  | FsOp.truncate p => fun q => if q = p then some "" else fs q
  | FsOp.write p d => fun q => if q = p then some (((fs p).getD "") ++ d) else fs q
  | FsOp.rename src dst => fun q =>
      if q = dst then fs src else if q = src then none else fs q

/-- Run a sequence of file-system operations. -/
def runOps (fs : String → Option String) (ops : List FsOp) : String → Option String :=
  ops.foldl applyOp fs

/-- The operations issued by the artifact write at source lines 320-321:
`open(output_path, 'w')` truncates, then `json.dump` writes the
serialized `results`. -/
def persistOps (path content : String) : List FsOp :=
  [FsOp.truncate path, FsOp.write path content]









/-- The concrete OCR text of the extraction scenario in the
specification (section 8). -/
def fullListingText : String :=
  "Sold Oct 11, 2025 Alkaline Trio - Goddamnit Vinyl LP Brand New $24.99 recordstore22 100.0% positive"

/-! ## Helper lemmas about the store and the loop -/

theorem lookupP_cons_self {β : Type} (k : String) (v : β) (l : List (String × β)) :
    List.lookup k ((k, v) :: l) = some v := by
  simp [List.lookup]

theorem lookupP_cons_ne {β : Type} (p k : String) (v : β) (l : List (String × β))
    (h : p ≠ k) : List.lookup p ((k, v) :: l) = List.lookup p l := by
  have hb : (p == k) = false := beq_eq_false_iff_ne.mpr h
  simp [List.lookup, hb]

theorem lookup_dictInsert_self (k : String) (v : JRecord) (d : Dict) :
    List.lookup k (dictInsert k v d) = some v := by
  induction d with
  | nil => simp [dictInsert, lookupP_cons_self]
  | cons kv rest ih =>
      obtain ⟨k0, v0⟩ := kv
      by_cases h : k0 = k
      · simp [dictInsert, h, lookupP_cons_self]
      · rw [dictInsert, if_neg h, lookupP_cons_ne k k0 v0 _ (Ne.symm h), ih]

theorem lookup_dictInsert_ne (p k : String) (v : JRecord) (d : Dict) (h : p ≠ k) :
    List.lookup p (dictInsert k v d) = List.lookup p d := by
  induction d with
  | nil =>
      show List.lookup p [(k, v)] = List.lookup p []
      exact lookupP_cons_ne p k v [] h
  | cons kv rest ih =>
      obtain ⟨k0, v0⟩ := kv
      by_cases h0 : k0 = k
      · subst h0
        rw [dictInsert, if_pos rfl, lookupP_cons_ne p k0 v _ h,
          lookupP_cons_ne p k0 v0 _ h]
      · rw [dictInsert, if_neg h0]
        by_cases hp : p = k0
        · subst hp
          rw [lookupP_cons_self, lookupP_cons_self]
        · rw [lookupP_cons_ne p k0 v0 _ hp, lookupP_cons_ne p k0 v0 _ hp, ih]

theorem lookup_dictInsert_isSome (p k : String) (v : JRecord) (d : Dict)
    (h : (List.lookup p d).isSome) :
    (List.lookup p (dictInsert k v d)).isSome := by
  by_cases hp : p = k
  · subst hp
    simp [lookup_dictInsert_self]
  · rwa [lookup_dictInsert_ne p k v d hp]

theorem lookup_mem_values (k : String) (v : JRecord) (d : Dict)
    (h : List.lookup k d = some v) : v ∈ d.map (fun kv => kv.2) := by
  induction d with
  | nil => simp [List.lookup] at h
  | cons kv rest ih =>
      obtain ⟨k0, v0⟩ := kv
      by_cases h0 : k = k0
      · subst h0
        rw [lookupP_cons_self] at h
        injection h with h
        subst h
        exact List.mem_cons_self _ _
      · rw [lookupP_cons_ne k k0 v0 _ h0] at h
        exact List.mem_cons_of_mem _ (ih h)

theorem processItem_lookup_ne (ocr : String → Except String String)
    (times : Nat → String) (idx : Nat) (d : Dict) (url public_id p : String)
    (h : p ≠ lastSeg public_id) :
    List.lookup p (processItem ocr times idx d url public_id) =
      List.lookup p d := by
  cases hocr : ocr url with
  | error e => simp only [processItem, hocr, lookup_dictInsert_ne _ _ _ _ h]
  | ok raw =>
      simp only [processItem, hocr]
      split <;> simp only [lookup_dictInsert_ne _ _ _ _ h]

theorem processItem_lookup_isSome (ocr : String → Except String String)
    (times : Nat → String) (idx : Nat) (d : Dict) (url public_id p : String)
    (h : (List.lookup p d).isSome) :
    (List.lookup p (processItem ocr times idx d url public_id)).isSome := by
  cases hocr : ocr url with
  | error e =>
      simp only [processItem, hocr]
      exact lookup_dictInsert_isSome _ _ _ _ h
  | ok raw =>
      simp only [processItem, hocr]
      split
      · exact lookup_dictInsert_isSome _ _ _ _ h
      · exact lookup_dictInsert_isSome _ _ _ _ (lookup_dictInsert_isSome _ _ _ _ h)

theorem runLoopAux_lookup_preserve (ocr : String → Except String String)
    (times : Nat → String) (p : String) :
    ∀ (work : List (String × String × String)) (idx : Nat) (d : Dict),
      (∀ u pb r, (u, pb, r) ∈ work → lastSeg pb ≠ p) →
      List.lookup p (runLoopAux ocr times idx work d) = List.lookup p d := by
  intro work
  induction work with
  | nil => intro idx d _; simp [runLoopAux]
  | cons item rest ih =>
      intro idx d h
      obtain ⟨u, pb, r⟩ := item
      have hne : lastSeg pb ≠ p := h u pb r (List.mem_cons_self _ _)
      have hrest : ∀ u2 pb2 r2, (u2, pb2, r2) ∈ rest → lastSeg pb2 ≠ p :=
        fun u2 pb2 r2 hm => h u2 pb2 r2 (List.mem_cons_of_mem _ hm)
      rw [runLoopAux, ih (idx + 1) _ hrest,
        processItem_lookup_ne ocr times idx d u pb p (Ne.symm hne)]

theorem runLoopAux_lookup_isSome (ocr : String → Except String String)
    (times : Nat → String) (p : String) :
    ∀ (work : List (String × String × String)) (idx : Nat) (d : Dict),
      (List.lookup p d).isSome →
      (List.lookup p (runLoopAux ocr times idx work d)).isSome := by
  intro work
  induction work with
  | nil => intro idx d h; simpa [runLoopAux] using h
  | cons item rest ih =>
      intro idx d h
      obtain ⟨u, pb, r⟩ := item
      rw [runLoopAux]
      exact ih (idx + 1) _ (processItem_lookup_isSome ocr times idx d u pb p h)

theorem filterAux_mem_inv (d : Dict) :
    ∀ (images : List (String × String)) (u pb r : String),
      (u, pb, r) ∈ filterAux d images →
      (u, pb) ∈ images ∧
        ((List.lookup (lastSeg pb) d = none ∧ r = "new") ∨
          ∃ e, List.lookup (lastSeg pb) d = some e ∧ successStatus e = some r ∧
            (r = "reprocess" ∨ r = "fail")) := by
  intro images
  induction images with
  | nil => intro u pb r h; simp [filterAux] at h
  | cons img rest ih =>
      intro u pb r h
      obtain ⟨u0, pb0⟩ := img
      rcases hl : List.lookup (lastSeg pb0) d with _ | e
      · simp only [filterAux, hl] at h
        rcases List.mem_cons.mp h with heq | hm
        · injection heq with h1 h23
          injection h23 with h2 h3
          subst h1; subst h2; subst h3
          exact ⟨List.mem_cons_self _ _, Or.inl ⟨hl, rfl⟩⟩
        · obtain ⟨hmem, hrest⟩ := ih u pb r hm
          exact ⟨List.mem_cons_of_mem _ hmem, hrest⟩
      · simp only [filterAux, hl] at h
        by_cases hrep : successStatus e = some "reprocess"
        · rw [if_pos hrep] at h
          rcases List.mem_cons.mp h with heq | hm
          · injection heq with h1 h23
            injection h23 with h2 h3
            subst h1; subst h2; subst h3
            exact ⟨List.mem_cons_self _ _, Or.inr ⟨e, hl, hrep, Or.inl rfl⟩⟩
          · obtain ⟨hmem, hrest⟩ := ih u pb r hm
            exact ⟨List.mem_cons_of_mem _ hmem, hrest⟩
        · rw [if_neg hrep] at h
          by_cases hfail : successStatus e = some "fail"
          · rw [if_pos hfail] at h
            rcases List.mem_cons.mp h with heq | hm
            · injection heq with h1 h23
              injection h23 with h2 h3
              subst h1; subst h2; subst h3
              exact ⟨List.mem_cons_self _ _, Or.inr ⟨e, hl, hfail, Or.inr rfl⟩⟩
            · obtain ⟨hmem, hrest⟩ := ih u pb r hm
              exact ⟨List.mem_cons_of_mem _ hmem, hrest⟩
          · rw [if_neg hfail] at h
            obtain ⟨hmem, hrest⟩ := ih u pb r h
            exact ⟨List.mem_cons_of_mem _ hmem, hrest⟩

theorem buildDictAux_lookup_isSome (p : String) :
    ∀ (data : List JRecord) (d : Dict),
      (List.lookup p d).isSome → (List.lookup p (buildDictAux d data)).isSome := by
  intro data
  induction data with
  | nil => intro d h; simpa [buildDictAux] using h
  | cons e rest ih =>
      intro d h
      rcases hpid : List.lookup "public_id" e with _ | (_ | s)
      · simp only [buildDictAux, hpid]; exact ih d h
      · simp only [buildDictAux, hpid]; exact ih d h
      · simp only [buildDictAux, hpid]
        by_cases hs : s = ""
        · rw [if_pos hs]; exact ih d h
        · rw [if_neg hs]; exact ih _ (lookup_dictInsert_isSome _ _ _ _ h)

theorem buildDict_mem_isSome (p : String) :
    ∀ (data : List JRecord) (d : Dict) (r : JRecord),
      r ∈ data → List.lookup "public_id" r = some (some p) → p ≠ "" →
      (List.lookup p (buildDictAux d data)).isSome := by
  intro data
  induction data with
  | nil =>
      intro d r h
      simp at h
  | cons e rest ih =>
      intro d r hmem hpid hne
      rcases List.mem_cons.mp hmem with heq | hm
      · subst heq
        simp only [buildDictAux, hpid, if_neg hne]
        refine buildDictAux_lookup_isSome p rest _ ?_
        rw [lookup_dictInsert_self]
        rfl
      · rcases hpid2 : List.lookup "public_id" e with _ | (_ | s)
        · simp only [buildDictAux, hpid2]; exact ih d r hm hpid hne
        · simp only [buildDictAux, hpid2]; exact ih d r hm hpid hne
        · simp only [buildDictAux, hpid2]
          by_cases hs : s = ""
          · rw [if_pos hs]; exact ih d r hm hpid hne
          · rw [if_neg hs]; exact ih _ r hm hpid hne

theorem filterAux_mem_new (d : Dict) :
    ∀ (images : List (String × String)) (u pb : String),
      (u, pb) ∈ images → List.lookup (lastSeg pb) d = none →
      (u, pb, "new") ∈ filterAux d images := by
  intro images
  induction images with
  | nil => intro u pb h; simp at h
  | cons img rest ih =>
      intro u pb hmem hl
      obtain ⟨u0, pb0⟩ := img
      rcases List.mem_cons.mp hmem with heq | hm
      · injection heq with h1 h2
        subst h1; subst h2
        simp only [filterAux, hl]
        exact List.mem_cons_self _ _
      · rcases hl0 : List.lookup (lastSeg pb0) d with _ | e
        · simp only [filterAux, hl0]
          exact List.mem_cons_of_mem _ (ih u pb hm hl)
        · simp only [filterAux, hl0]
          by_cases hrep : successStatus e = some "reprocess"
          · rw [if_pos hrep]; exact List.mem_cons_of_mem _ (ih u pb hm hl)
          · rw [if_neg hrep]
            by_cases hfail : successStatus e = some "fail"
            · rw [if_pos hfail]; exact List.mem_cons_of_mem _ (ih u pb hm hl)
            · rw [if_neg hfail]; exact ih u pb hm hl

theorem filterAux_mem_retry (d : Dict) :
    ∀ (images : List (String × String)) (u pb : String) (e : JRecord) (r : String),
      (u, pb) ∈ images → List.lookup (lastSeg pb) d = some e →
      successStatus e = some r → (r = "reprocess" ∨ r = "fail") →
      (u, pb, r) ∈ filterAux d images := by
  intro images
  induction images with
  | nil => intro u pb e r h; simp at h
  | cons img rest ih =>
      intro u pb e r hmem hl hs hr
      obtain ⟨u0, pb0⟩ := img
      rcases List.mem_cons.mp hmem with heq | hm
      · injection heq with h1 h2
        subst h1; subst h2
        simp only [filterAux, hl]
        rcases hr with hr | hr
        · subst hr
          rw [if_pos hs]
          exact List.mem_cons_self _ _
        · subst hr
          rw [if_neg (by rw [hs]; decide), if_pos hs]
          exact List.mem_cons_self _ _
      · rcases hl0 : List.lookup (lastSeg pb0) d with _ | e0
        · simp only [filterAux, hl0]
          exact List.mem_cons_of_mem _ (ih u pb e r hm hl hs hr)
        · simp only [filterAux, hl0]
          by_cases hrep : successStatus e0 = some "reprocess"
          · rw [if_pos hrep]; exact List.mem_cons_of_mem _ (ih u pb e r hm hl hs hr)
          · rw [if_neg hrep]
            by_cases hfail : successStatus e0 = some "fail"
            · rw [if_pos hfail]; exact List.mem_cons_of_mem _ (ih u pb e r hm hl hs hr)
            · rw [if_neg hfail]; exact ih u pb e r hm hl hs hr

theorem runLoopAux_error_last (ocr : String → Except String String)
    (times : Nat → String) (e url pb : String) :
    ∀ (work : List (String × String × String)) (i idx : Nat) (d : Dict) (r : String),
      work.get? i = some (url, pb, r) →
      ocr url = Except.error e →
      (∀ j u2 pb2 r2, i < j → work.get? j = some (u2, pb2, r2) →
        lastSeg pb2 ≠ lastSeg pb) →
      List.lookup (lastSeg pb) (runLoopAux ocr times idx work d) =
        some (failRecord e url (lastSeg pb) (times (idx + i))) := by
  intro work
  induction work with
  | nil =>
      intro i idx d r hget
      simp [List.get?] at hget
  | cons item rest ih =>
      intro i idx d r hget herr hlast
      obtain ⟨u0, pb0, r0⟩ := item
      cases i with
      | zero =>
          simp only [List.get?] at hget
          injection hget with hget
          injection hget with h1 h23
          injection h23 with h2 h3
          rw [runLoopAux, h1, h2]
          have hrest : ∀ u2 pb2 r2, (u2, pb2, r2) ∈ rest → lastSeg pb2 ≠ lastSeg pb := by
            intro u2 pb2 r2 hm
            obtain ⟨j, hj⟩ := List.get?_of_mem hm
            exact hlast (j + 1) u2 pb2 r2 (Nat.succ_pos j) (by simpa [List.get?] using hj)
          rw [runLoopAux_lookup_preserve ocr times (lastSeg pb) rest (idx + 1) _ hrest]
          simp only [processItem, herr]
          rw [Nat.add_zero]
          exact lookup_dictInsert_self _ _ _
      | succ j =>
          simp only [List.get?] at hget
          rw [runLoopAux]
          have hlast2 : ∀ j2 u2 pb2 r2, j < j2 → rest.get? j2 = some (u2, pb2, r2) →
              lastSeg pb2 ≠ lastSeg pb := by
            intro j2 u2 pb2 r2 hj hg
            exact hlast (j2 + 1) u2 pb2 r2 (Nat.succ_lt_succ hj) (by simpa [List.get?] using hg)
          have hstep := ih j (idx + 1) (processItem ocr times idx d u0 pb0) r hget herr hlast2
          have harith : idx + 1 + j = idx + (j + 1) := by omega
          rw [harith] at hstep
          exact hstep

/-! ## Claim theorems -/

/-- C1: the claim states that every record produced by an extraction
attempt carries a status field derived solely from which of `sold_date`,
`title`, `sold_price` are non-null (all three non-null giving
`Complete`, a missing one with successful OCR giving `Reprocess`, an OCR
error giving `Fail`).  The code violates this: `parse_ocr_to_json`
builds a dict with no `success` key at all, so on the specification's
fully extractable text the parsed record has all three fields non-null
yet carries no status, and the main loop's read of `parsed[success]`
then raises a `KeyError` whose handler overwrites the entry with a
`fail` record titled with the stringified `KeyError`.  This theorem
evaluates the code at that failing input. -/
theorem c1_status_not_derived_from_fields :
    List.lookup "sold_date" (parse_ocr_to_json fullListingText "u" "p" "t")
        = some (some "Oct 11, 2025") ∧
    List.lookup "title" (parse_ocr_to_json fullListingText "u" "p" "t")
        = some (some "Alkaline Trio - Goddamnit Vinyl LP") ∧
    List.lookup "sold_price" (parse_ocr_to_json fullListingText "u" "p" "t")
        = some (some "24.99") ∧
    List.lookup "success" (parse_ocr_to_json fullListingText "u" "p" "t") = none ∧
    List.lookup "p"
        (processItem (fun _ => Except.ok fullListingText) (fun _ => "t") 1 [] "u" "p")
        = some (failRecord keyErrorMsg "u" "p" "t") ∧
    List.lookup "success" (failRecord keyErrorMsg "u" "p" "t") = some (some "fail") := by
  refine ⟨by decide, by decide, by decide, by decide, by decide, by decide⟩

/-- C2: `filter_images_to_process` includes a source item `(url,
public_id)` as `new` when the last path segment of its id is absent from
the loaded store index, includes it with the stored status as the
reason when that status is `reprocess` or `fail`, and excludes it when
the status is `complete`. -/
theorem c2_work_list_classification (images : List (String × String))
    (existing : List JRecord) (url public_id : String)
    (hmem : (url, public_id) ∈ images) :
    (List.lookup (lastSeg public_id) (buildExistingDict existing) = none →
        (url, public_id, "new") ∈ filter_images_to_process images existing) ∧
    (∀ e, List.lookup (lastSeg public_id) (buildExistingDict existing) = some e →
        successStatus e = some "reprocess" →
        (url, public_id, "reprocess") ∈ filter_images_to_process images existing) ∧
    (∀ e, List.lookup (lastSeg public_id) (buildExistingDict existing) = some e →
        successStatus e = some "fail" →
        (url, public_id, "fail") ∈ filter_images_to_process images existing) ∧
    (∀ e, List.lookup (lastSeg public_id) (buildExistingDict existing) = some e →
        successStatus e = some "complete" →
        ∀ r, (url, public_id, r) ∉ filter_images_to_process images existing) := by
  refine ⟨fun hl => filterAux_mem_new _ images url public_id hmem hl,
    fun e hl hs => filterAux_mem_retry _ images url public_id e _ hmem hl hs (Or.inl rfl),
    fun e hl hs => filterAux_mem_retry _ images url public_id e _ hmem hl hs (Or.inr rfl),
    fun e hl hs r hr => ?_⟩
  obtain ⟨_, hinv⟩ := filterAux_mem_inv (buildExistingDict existing) images url public_id r hr
  rcases hinv with ⟨hnone, _⟩ | ⟨e2, hl2, hs2, hcases⟩
  · rw [hl] at hnone
    exact Option.noConfusion hnone
  · rw [hl] at hl2
    injection hl2 with he
    rw [← he] at hs2
    rw [hs] at hs2
    injection hs2 with he2
    rcases hcases with h2 | h2 <;> rw [← he2] at h2 <;> exact absurd h2 (by decide)

/-- Witness for C2 at a concrete source listing and store holding one
reprocess, one fail and one complete record. -/
theorem c2_witness :
    ("u1", "a/p1", "new") ∈ filter_images_to_process
        [("u1", "a/p1"), ("u2", "p2"), ("u3", "p3"), ("u4", "p4")]
        [[("public_id", some "p2"), ("success", some "reprocess")],
          [("public_id", some "p3"), ("success", some "fail")],
          [("public_id", some "p4"), ("success", some "complete")]] ∧
    ("u2", "p2", "reprocess") ∈ filter_images_to_process
        [("u1", "a/p1"), ("u2", "p2"), ("u3", "p3"), ("u4", "p4")]
        [[("public_id", some "p2"), ("success", some "reprocess")],
          [("public_id", some "p3"), ("success", some "fail")],
          [("public_id", some "p4"), ("success", some "complete")]] ∧
    ("u3", "p3", "fail") ∈ filter_images_to_process
        [("u1", "a/p1"), ("u2", "p2"), ("u3", "p3"), ("u4", "p4")]
        [[("public_id", some "p2"), ("success", some "reprocess")],
          [("public_id", some "p3"), ("success", some "fail")],
          [("public_id", some "p4"), ("success", some "complete")]] ∧
    ("u4", "p4", "complete") ∉ filter_images_to_process
        [("u1", "a/p1"), ("u2", "p2"), ("u3", "p3"), ("u4", "p4")]
        [[("public_id", some "p2"), ("success", some "reprocess")],
          [("public_id", some "p3"), ("success", some "fail")],
          [("public_id", some "p4"), ("success", some "complete")]] :=
  ⟨(c2_work_list_classification _ _ "u1" "a/p1" (by decide)).1 (by decide),
    (c2_work_list_classification _ _ "u2" "p2" (by decide)).2.1
      [("public_id", some "p2"), ("success", some "reprocess")] (by decide) (by decide),
    (c2_work_list_classification _ _ "u3" "p3" (by decide)).2.2.1
      [("public_id", some "p3"), ("success", some "fail")] (by decide) (by decide),
    (c2_work_list_classification _ _ "u4" "p4" (by decide)).2.2.2
      [("public_id", some "p4"), ("success", some "complete")] (by decide) (by decide)
      "complete"⟩

/-- C3: the claim states that the field extractor applied to the sample
text yields the four claimed field values and `status = Complete`.  The
four field extractions hold as claimed, but the record carries no status
at all: `parse_ocr_to_json` never writes a `success` key (the same slip
exhibited for C1), so the `status = Complete` part fails on the code. -/
theorem c3_extraction_scenario :
    List.lookup "sold_date" (parse_ocr_to_json fullListingText "u3" "p3" "t3")
        = some (some "Oct 11, 2025") ∧
    List.lookup "title" (parse_ocr_to_json fullListingText "u3" "p3" "t3")
        = some (some "Alkaline Trio - Goddamnit Vinyl LP") ∧
    List.lookup "sold_price" (parse_ocr_to_json fullListingText "u3" "p3" "t3")
        = some (some "24.99") ∧
    List.lookup "seller" (parse_ocr_to_json fullListingText "u3" "p3" "t3")
        = some (some "recordstore22") ∧
    List.lookup "success" (parse_ocr_to_json fullListingText "u3" "p3" "t3") = none := by
  refine ⟨by decide, by decide, by decide, by decide, by decide⟩

/-- C4: a stored record whose status is `complete` is left unchanged by
a run: its key is never part of the work list, so the final store still
maps the key to the identical record, and the record appears unchanged
in the persisted output list. -/
theorem c4_complete_terminal (images : List (String × String))
    (existing : List JRecord) (ocr : String → Except String String)
    (times : Nat → String) (pid : String) (stored : JRecord)
    (hlook : List.lookup pid (buildExistingDict existing) = some stored)
    (hcomp : successStatus stored = some "complete") :
    List.lookup pid (finalStore images existing ocr times) = some stored ∧
    ∀ out, main_run images existing ocr times = some out → stored ∈ out := by
  have hkeys : ∀ u pb r, (u, pb, r) ∈ filter_images_to_process images existing →
      lastSeg pb ≠ pid := by
    intro u pb r hr heq
    obtain ⟨_, hinv⟩ := filterAux_mem_inv (buildExistingDict existing) images u pb r hr
    rw [heq] at hinv
    rcases hinv with ⟨hnone, _⟩ | ⟨e2, hl2, hs2, hcases⟩
    · rw [hlook] at hnone
      exact Option.noConfusion hnone
    · rw [hlook] at hl2
      injection hl2 with he
      rw [← he] at hs2
      rw [hcomp] at hs2
      injection hs2 with he2
      rcases hcases with h2 | h2 <;> rw [← he2] at h2 <;> exact absurd h2 (by decide)
  have h1 : List.lookup pid (finalStore images existing ocr times) = some stored := by
    unfold finalStore
    rw [runLoopAux_lookup_preserve ocr times pid
      (filter_images_to_process images existing) 1 (buildExistingDict existing) hkeys]
    exact hlook
  refine ⟨h1, fun out hout => ?_⟩
  rcases hw : filter_images_to_process images existing with _ | ⟨w0, ws⟩
  · simp only [main_run, hw] at hout
    exact Option.noConfusion hout
  · simp only [main_run, hw] at hout
    injection hout with hout
    subst hout
    exact lookup_mem_values pid stored _ h1

/-- Witness for C4: a complete record survives a run that processes a
new image while its own id is still listed in the source. -/
theorem c4_witness :
    List.lookup "pc" (finalStore [("uc", "pc"), ("un", "pn")]
        [[("public_id", some "pc"), ("success", some "complete"), ("title", some "kept")]]
        (fun _ => Except.error "boom") (fun _ => "tw"))
      = some [("public_id", some "pc"), ("success", some "complete"),
          ("title", some "kept")] :=
  (c4_complete_terminal [("uc", "pc"), ("un", "pn")]
      [[("public_id", some "pc"), ("success", some "complete"), ("title", some "kept")]]
      (fun _ => Except.error "boom") (fun _ => "tw") "pc"
      [("public_id", some "pc"), ("success", some "complete"), ("title", some "kept")]
      (by decide) (by decide)).1

/-- C5 counterexample: the claim states that a second run with the same
source images and the same OCR output yields an identical persisted
artifact.  It does not: any non-complete record is re-processed, and the
rewritten record carries a fresh `processed_at` timestamp (and, because
`parse_ocr_to_json` emits no `success` key, the item is stored again as
a `fail` record), so with one image and unchanged OCR text the first run
persists a record stamped `t1` and the second run persists a different
record stamped `t2`. -/
theorem c5_second_run_changes_artifact :
    main_run [("u1", "p1")] [] (fun _ => Except.ok "no fields here") (fun _ => "t1")
        = some [failRecord keyErrorMsg "u1" "p1" "t1"] ∧
    main_run [("u1", "p1")] [failRecord keyErrorMsg "u1" "p1" "t1"]
        (fun _ => Except.ok "no fields here") (fun _ => "t2")
        = some [failRecord keyErrorMsg "u1" "p1" "t2"] ∧
    [failRecord keyErrorMsg "u1" "p1" "t2"] ≠ [failRecord keyErrorMsg "u1" "p1" "t1"] := by
  refine ⟨by decide, by decide, by decide⟩

/-- C5 amended: a repeat run leaves the persisted artifact untouched
exactly when its work list is empty; in that case `main()` returns at
the early exit before any write or publish (`main_run` yields `none`,
meaning no write happens, which is the only case in which the artifact
is guaranteed identical). -/
theorem c5_noop_iff_empty_work (images : List (String × String))
    (existing : List JRecord) (ocr : String → Except String String)
    (times : Nat → String) :
    main_run images existing ocr times = none ↔
      filter_images_to_process images existing = [] := by
  constructor
  · intro h
    rcases hw : filter_images_to_process images existing with _ | ⟨w0, ws⟩
    · rfl
    · simp only [main_run, hw] at h
      exact Option.noConfusion h
  · intro h
    simp only [main_run, h]

/-- C6 counterexample: the claim states that the artifact write is
atomic with respect to partial writes (write-to-temp-then-rename or
equivalent).  It is not: `main` opens the artifact path itself in `w`
mode, which truncates it in place before `json.dump` writes the new
content, and no rename is ever issued; after the truncating open and
before the write completes the artifact holds the empty string, which is
neither the old nor the new content. -/
theorem c6_truncated_intermediate_state :
    runOps (fun q => if q = "data/EbayListings.json" then some "[old]" else none)
        ((persistOps "data/EbayListings.json" "[new]").take 1) "data/EbayListings.json"
      = some "" ∧
    (some "" : Option String) ≠ some "[old]" ∧
    (some "" : Option String) ≠ some "[new]" ∧
    ∀ op ∈ persistOps "data/EbayListings.json" "[new]", op.isRename = false := by
  refine ⟨by decide, by decide, by decide, ?_⟩
  intro op hop
  simp only [persistOps, List.mem_cons, List.not_mem_nil, or_false] at hop
  rcases hop with rfl | rfl <;> rfl

/-- C6 amended: `persist` serializes the full mapping by truncating the
artifact in place and writing the serialized content directly to the
same path, with no temporary file and no rename; when it runs to
completion the artifact holds exactly the new content, but an
interruption between the truncating open and the completed write leaves
an artifact holding neither the previous nor the new content. -/
theorem c6_persist_truncates_in_place (path content old : String)
    (fs : String → Option String)
    (_hold : fs path = some old) (hne : old ≠ "") (hcne : content ≠ "") :
    runOps fs (persistOps path content) path = some content ∧
    (∀ op ∈ persistOps path content, op.isRename = false) ∧
    ∃ k, runOps fs ((persistOps path content).take k) path ≠ some old ∧
      runOps fs ((persistOps path content).take k) path ≠ some content := by
  have htrunc : runOps fs ((persistOps path content).take 1) path = some "" := by
    simp [persistOps, runOps, applyOp]
  refine ⟨?_, ?_, 1, ?_, ?_⟩
  · simp [persistOps, runOps, applyOp]
  · intro op hop
    simp only [persistOps, List.mem_cons, List.not_mem_nil, or_false] at hop
    rcases hop with rfl | rfl <;> rfl
  · rw [htrunc]
    intro hcontra
    injection hcontra with hc
    exact hne hc.symm
  · rw [htrunc]
    intro hcontra
    injection hcontra with hc
    exact hcne hc.symm

/-- Witness for C6 amended at a concrete path, old and new content. -/
theorem c6_witness :
    runOps (fun q => if q = "a.json" then some "x" else none)
        (persistOps "a.json" "y") "a.json" = some "y" :=
  (c6_persist_truncates_in_place "a.json" "y" "x"
      (fun q => if q = "a.json" then some "x" else none)
      (by decide) (by decide) (by decide)).1

/-- C7: when the OCR collaborator raises for a work item, the run does
not abort: it still persists an artifact, and the final store maps the
item's id to the synthetic failure record with status `fail`, null
`sold_date`, `sold_price` and `seller`, and a title carrying `Error:`
followed by the raised message truncated to fifty characters.  The
hypothesis `hlast` states that no later work item shares the id, so the
failure record is the last write for that key. -/
theorem c7_ocr_error_fail_record (images : List (String × String))
    (existing : List JRecord) (ocr : String → Except String String)
    (times : Nat → String) (i : Nat) (url pb reason e : String)
    (hget : (filter_images_to_process images existing).get? i = some (url, pb, reason))
    (herr : ocr url = Except.error e)
    (hlast : ∀ j u2 pb2 r2, i < j →
        (filter_images_to_process images existing).get? j = some (u2, pb2, r2) →
        lastSeg pb2 ≠ lastSeg pb) :
    main_run images existing ocr times
        = some ((finalStore images existing ocr times).map (fun kv => kv.2)) ∧
    List.lookup (lastSeg pb) (finalStore images existing ocr times)
        = some (failRecord e url (lastSeg pb) (times (1 + i))) ∧
    failRecord e url (lastSeg pb) (times (1 + i)) ∈
        (finalStore images existing ocr times).map (fun kv => kv.2) ∧
    List.lookup "success" (failRecord e url (lastSeg pb) (times (1 + i)))
        = some (some "fail") ∧
    List.lookup "sold_date" (failRecord e url (lastSeg pb) (times (1 + i))) = some none ∧
    List.lookup "title" (failRecord e url (lastSeg pb) (times (1 + i)))
        = some (some ("Error: " ++ (⟨e.data.take 50⟩ : String))) ∧
    List.lookup "sold_price" (failRecord e url (lastSeg pb) (times (1 + i))) = some none ∧
    List.lookup "seller" (failRecord e url (lastSeg pb) (times (1 + i))) = some none := by
  have hfs : List.lookup (lastSeg pb) (finalStore images existing ocr times)
      = some (failRecord e url (lastSeg pb) (times (1 + i))) :=
    runLoopAux_error_last ocr times e url pb
      (filter_images_to_process images existing) i 1 (buildExistingDict existing)
      reason hget herr hlast
  refine ⟨?_, hfs, lookup_mem_values _ _ _ hfs, rfl, rfl, rfl, rfl, rfl⟩
  rcases hw : filter_images_to_process images existing with _ | ⟨w0, ws⟩
  · rw [hw] at hget
    simp [List.get?] at hget
  · simp only [main_run, hw]

/-- Witness for C7: a one-image run whose OCR call raises `timeout`. -/
theorem c7_witness :
    List.lookup (lastSeg "pe")
        (finalStore [("ue", "pe")] [] (fun _ => Except.error "timeout") (fun _ => "te"))
      = some (failRecord "timeout" "ue" (lastSeg "pe") "te") :=
  (c7_ocr_error_fail_record [("ue", "pe")] [] (fun _ => Except.error "timeout")
      (fun _ => "te") 0 "ue" "pe" "new" "timeout" (by decide) rfl
      (by
        intro j u2 pb2 r2 hj hg
        have hfil : filter_images_to_process [("ue", "pe")] [] = [("ue", "pe", "new")] := by
          decide
        rw [hfil] at hg
        cases j with
        | zero => exact absurd hj (by decide)
        | succ n => simp [List.get?] at hg)).2.1

/-- C8: `load_existing_json` yields the empty collection both when the
artifact file is missing and when it exists but deserialization raises,
and the run then proceeds exactly as from a fresh store rather than
aborting. -/
theorem c8_load_missing_or_malformed :
    ∀ e : String,
      load_existing_json none = [] ∧
      load_existing_json (some (Except.error e)) = [] ∧
      ∀ (images : List (String × String)) (ocr : String → Except String String)
        (times : Nat → String),
        main_run images (load_existing_json (some (Except.error e))) ocr times
          = main_run images ([] : List JRecord) ocr times :=
  fun _ => ⟨rfl, rfl, fun _ _ _ => rfl⟩

/-- C9 counterexample: the claim states a run never deletes a loaded
entry.  It does: re-indexing the store drops every entry without a
truthy `public_id`, so an entry lacking that key is absent from the
artifact persisted by a run that processes one work item. -/
theorem c9_orphan_entry_deleted :
    main_run [("u1", "p1")] [[("title", some "orphan")]]
        (fun _ => Except.error "t") (fun _ => "tt")
      = some [failRecord "t" "u1" "p1" "tt"] ∧
    [("title", (some "orphan" : JVal))] ∉ [failRecord "t" "u1" "p1" "tt"] := by
  refine ⟨by decide, by decide⟩

/-- C9 amended: a run never deletes a record that carries a non-null,
non-empty `public_id`: its key is still bound in the final store (to the
original or a replacing record), and that binding appears in the
persisted output of any run that writes; entries without a truthy
`public_id` are silently dropped by the re-indexing. -/
theorem c9_truthy_id_never_deleted (images : List (String × String))
    (existing : List JRecord) (ocr : String → Except String String)
    (times : Nat → String) (r : JRecord) (pidv : String)
    (hmem : r ∈ existing)
    (hpid : List.lookup "public_id" r = some (some pidv))
    (hne : pidv ≠ "") :
    (∃ r2, List.lookup pidv (finalStore images existing ocr times) = some r2) ∧
    ∀ out, main_run images existing ocr times = some out →
      ∃ r2, r2 ∈ out ∧ List.lookup pidv (finalStore images existing ocr times) = some r2 := by
  have h0 : (List.lookup pidv (buildExistingDict existing)).isSome :=
    buildDict_mem_isSome pidv existing [] r hmem hpid hne
  have hF : (List.lookup pidv (finalStore images existing ocr times)).isSome := by
    unfold finalStore
    exact runLoopAux_lookup_isSome ocr times pidv
      (filter_images_to_process images existing) 1 (buildExistingDict existing) h0
  obtain ⟨r2, hr2⟩ := Option.isSome_iff_exists.mp hF
  refine ⟨⟨r2, hr2⟩, fun out hout => ?_⟩
  rcases hw : filter_images_to_process images existing with _ | ⟨w0, ws⟩
  · simp only [main_run, hw] at hout
    exact Option.noConfusion hout
  · simp only [main_run, hw] at hout
    injection hout with hout
    subst hout
    exact ⟨r2, lookup_mem_values pidv r2 _ hr2, hr2⟩

/-- Witness for C9 amended: a stored record keyed `pk` keeps a binding
through a run processing an unrelated new image. -/
theorem c9_witness :
    (List.lookup "pk" (finalStore [("u1", "p1")]
        [[("public_id", some "pk"), ("success", some "reprocess")]]
        (fun _ => Except.error "t") (fun _ => "tk"))).isSome = true := by
  obtain ⟨r2, hr2⟩ := (c9_truthy_id_never_deleted [("u1", "p1")]
      [[("public_id", some "pk"), ("success", some "reprocess")]]
      (fun _ => Except.error "t") (fun _ => "tk")
      [("public_id", some "pk"), ("success", some "reprocess")] "pk"
      (by decide) (by decide) (by decide)).1
  rw [hr2]
  rfl

/-- C10: a stored entry with no `success` key at all is classified with
the default status `fail`, so the item is re-included in the work list
with reason `fail` rather than being skipped as complete or counted as
new. -/
theorem c10_missing_success_defaults_to_fail (images : List (String × String))
    (existing : List JRecord) (url public_id : String) (e : JRecord)
    (hmem : (url, public_id) ∈ images)
    (hlook : List.lookup (lastSeg public_id) (buildExistingDict existing) = some e)
    (hnos : List.lookup "success" e = none) :
    (url, public_id, "fail") ∈ filter_images_to_process images existing ∧
    (url, public_id, "new") ∉ filter_images_to_process images existing ∧
    (url, public_id, "reprocess") ∉ filter_images_to_process images existing := by
  have hst : successStatus e = some "fail" := by
    simp [successStatus, hnos]
  refine ⟨filterAux_mem_retry _ images url public_id e _ hmem hlook hst (Or.inr rfl),
    ?_, ?_⟩
  · intro hcontra
    obtain ⟨_, hinv⟩ := filterAux_mem_inv (buildExistingDict existing) images url public_id
      "new" hcontra
    rcases hinv with ⟨hnone, _⟩ | ⟨e2, hl2, hs2, hr2⟩
    · rw [hlook] at hnone
      exact Option.noConfusion hnone
    · rcases hr2 with h2 | h2 <;> exact absurd h2 (by decide)
  · intro hcontra
    obtain ⟨_, hinv⟩ := filterAux_mem_inv (buildExistingDict existing) images url public_id
      "reprocess" hcontra
    rcases hinv with ⟨_, hr⟩ | ⟨e2, hl2, hs2, _⟩
    · exact absurd hr (by decide)
    · rw [hlook] at hl2
      injection hl2 with he
      rw [← he] at hs2
      rw [hst] at hs2
      injection hs2 with he2
      exact absurd he2 (by decide)

/-- Witness for C10: an entry storing a `public_id` and a title but no
`success` key is re-included with reason `fail`. -/
theorem c10_witness :
    ("u5", "p5", "fail") ∈ filter_images_to_process [("u5", "p5")]
        [[("public_id", some "p5"), ("title", some "x")]] :=
  (c10_missing_success_defaults_to_fail [("u5", "p5")]
      [[("public_id", some "p5"), ("title", some "x")]] "u5" "p5"
      [("public_id", some "p5"), ("title", some "x")]
      (by decide) (by decide) (by decide)).1
